import Mathlib

/-!
# Shallow embedding of the process-management syscalls

Verification of the process-management syscall layer of a small rCore-style
kernel.  The definitions below are a shallow embedding of
`src/os/src/syscall/process.rs` and `src/os/src/task/task.rs`:

* machine `usize`/`isize` values are modelled as `Nat`/`Int` with explicit
  two's-complement casts (`isizeToUsize`, `usizeToIsize`);
* the caller's mutable kernel state that a syscall touches (its `children`
  list, its stored `priority`, a child's trap context) is passed in and the
  updated value is returned;
* writes performed through the user address-space translation
  (`translated_refmut` / `translated_ptr`) are returned as explicit
  `(token, address, value)` / `(address, value)` records rather than
  performed on an ambient memory;
* kernel services that live outside the two embedded files (the
  region-level `mmap`/`unmap` of the memory-set module, `TaskControlBlock::fork`)
  enter as parameters/oracles, so each definition captures exactly the logic
  of the embedded syscall body.
-/

namespace RCore

/-- Machine word modulus of the 64-bit target (`usize` arithmetic). -/
def USIZE_MOD : Nat := 2 ^ 64

/-- Rust's `as usize` cast applied to an `isize` value: two's-complement
reinterpretation, i.e. reduction mod `2^64`. -/
def isizeToUsize (i : Int) : Nat := (i % (USIZE_MOD : Int)).toNat

/-- Rust's `as isize` cast applied to a `usize` value: two's-complement
reinterpretation back into the signed range. -/
def usizeToIsize (n : Nat) : Int :=
  if n < 2 ^ 63 then (n : Int) else (n : Int) - (USIZE_MOD : Int)

/-- Modelled from the spec: the page size used by the address-space layer
(`config`/`mm` modules, not part of the embedded sources); rCore uses
4 KiB pages. -/
def PAGE_SIZE : Nat := 4096

/-- `TaskStatus` from `src/os/src/task/task.rs` (lines 31-42), verbatim:
the four states of a task. -/
inductive TaskStatus where
  /-- uninitialized -/
  | UnInit
  /-- ready to run -/
  | Ready
  /-- running -/
  | Running
  /-- exited -/
  | Exited
deriving DecidableEq

/-- `TimeVal` from `src/os/src/syscall/process.rs`. -/
structure TimeVal where
  sec : Nat
  usec : Nat
deriving DecidableEq

/-- `TaskInfo` from `src/os/src/syscall/process.rs`: status, per-syscall
counters (`[u32; MAX_SYSCALL_NUM]`, modelled as a list) and run time. -/
structure TaskInfo where
  status : TaskStatus
  syscall_times : List Nat
  time : Nat
deriving DecidableEq

/-- The slice of a child task-control block that `sys_waitpid` inspects:
its pid, whether `inner.is_zombie()` holds, and its recorded `exit_code`. -/
structure Child where
  pid : Nat
  is_zombie : Bool
  exit_code : Int
deriving DecidableEq

/-- The child-matching test of `sys_waitpid`:
`pid == -1 || pid as usize == p.getpid()`. -/
def waitMatches (pid : Int) (c : Child) : Bool :=
  pid == -1 || isizeToUsize pid == c.pid

/-- The predicate of the `find` in `sys_waitpid`:
`p.inner_exclusive_access().is_zombie() && (pid == -1 || pid as usize == p.getpid())`. -/
def zombieMatch (pid : Int) (c : Child) : Bool :=
  c.is_zombie && waitMatches pid c

/-- `children.iter().enumerate().find(...)` over the zombie-match predicate:
index and element of the first matching zombie child. -/
def findZombie (pid : Int) : List Child → Option (Nat × Child)
  | [] => none
  | c :: cs =>
    if zombieMatch pid c then some (0, c)
    else (findZombie pid cs).map (fun p => (p.1 + 1, p.2))

/-- Result of a `sys_waitpid` call: the returned `isize`, the caller's
`children` list after the call, and the write performed through
`translated_refmut(inner.memory_set.token(), exit_code_ptr)`, recorded as
`(token, address, value)` (`none` when nothing is written). -/
structure WaitResult where
  ret : Int
  children : List Child
  write : Option (Nat × Nat × Int)
deriving DecidableEq

/-- `sys_waitpid` from `src/os/src/syscall/process.rs` (lines 82-116).
`token` is the caller's `inner.memory_set.token()`. -/
def sys_waitpid (token : Nat) (children : List Child) (pid : Int)
    (exit_code_ptr : Nat) : WaitResult :=
  if !(children.any (fun p => waitMatches pid p)) then
    ⟨-1, children, none⟩
  else
    match findZombie pid children with
    | some (idx, child) =>
      ⟨usizeToIsize child.pid, children.eraseIdx idx,
        some (token, exit_code_ptr, child.exit_code)⟩
    | none => ⟨-2, children, none⟩

/-- The child task handed back by `TaskControlBlock::fork` (the fork body
itself lives outside the embedded sources): a fresh pid and the saved trap
context, whose general-purpose registers are `x: [usize; 32]`. -/
structure ForkedTask where
  pid : Nat
  x : Fin 32 → Nat

/-- `sys_fork` from `src/os/src/syscall/process.rs` (lines 52-65): given the
task produced by `fork`, patch `trap_cx.x[10] = 0`, hand the patched task to
`add_task`, and return the child's pid cast to `isize`.  The result is the
pair (parent's return value, task as given to the scheduler). -/
def sys_fork (new_task : ForkedTask) : Int × ForkedTask :=
  (usizeToIsize new_task.pid,
    { new_task with x := Function.update new_task.x 10 0 })

/-- `sys_get_time` from `src/os/src/syscall/process.rs` (lines 121-137):
`time` is the `get_time_us()` reading taken during the call, `ts_ptr` the
user pointer; the result is the returned value together with the `TimeVal`
written through `translated_ptr(current_user_token(), _ts)`. -/
def sys_get_time (time : Nat) (ts_ptr : Nat) : Int × (Nat × TimeVal) :=
  (0, (ts_ptr, ⟨time / 1000000, time % 1000000⟩))

/-- `sys_task_info` from `src/os/src/syscall/process.rs` (lines 142-148): the
body only returns `-1`; the second component records the write performed
through the `TaskInfo` pointer (there is none). -/
def sys_task_info (_ti : Nat) : Int × Option (Nat × TaskInfo) :=
  (-1, none)

/-- `sys_mmap` from `src/os/src/syscall/process.rs` (lines 151-198).
`mapOracle` stands for the region-level `mmap(start_vpn, end_vpn, port)` of
the task/memory-set module (outside the embedded sources; `-2` = some page
already mapped, `-3` = out of frames, `≥ 0` = success).  The result pairs
the returned `isize` with the argument triple passed to the oracle (`none`
when validation rejects the call before the oracle runs).  `VirtAddr::floor`
and `VirtAddr::ceil` are modelled from the spec as page-granularity floor
and ceiling; `start + len` wraps mod `2^64` as `usize` addition does. -/
def sys_mmap (mapOracle : Nat → Nat → Nat → Int)
    (start len port : Nat) : Int × Option (Nat × Nat × Nat) :=
  if ¬ start % PAGE_SIZE = 0 then (-1, none)
  else if (port &&& (USIZE_MOD - 8)) ≠ 0 ∨ (port &&& 0x7) = 0 then (-1, none)
  else if len ≤ 0 then (-1, none)
  else
    (if mapOracle (start / PAGE_SIZE)
        (((start + len) % USIZE_MOD + PAGE_SIZE - 1) / PAGE_SIZE) port < 0
      then -1 else 0,
      some (start / PAGE_SIZE,
        ((start + len) % USIZE_MOD + PAGE_SIZE - 1) / PAGE_SIZE, port))

/-- `sys_munmap` from `src/os/src/syscall/process.rs` (lines 201-240), with
`unmapOracle` standing for the region-level `munmap(start_vpn, end_vpn)`
(outside the embedded sources).  Same conventions as `sys_mmap`. -/
def sys_munmap (unmapOracle : Nat → Nat → Int)
    (start len : Nat) : Int × Option (Nat × Nat) :=
  if ¬ start % PAGE_SIZE = 0 then (-1, none)
  else if len ≤ 0 then (-1, none)
  else
    (if unmapOracle (start / PAGE_SIZE)
        (((start + len) % USIZE_MOD + PAGE_SIZE - 1) / PAGE_SIZE) < 0
      then -1 else 0,
      some (start / PAGE_SIZE,
        ((start + len) % USIZE_MOD + PAGE_SIZE - 1) / PAGE_SIZE))

/-- `sys_set_priority` from `src/os/src/syscall/process.rs` (lines 295-312):
`cur` is the caller's stored `inner.priority` (a `usize`); the result pairs
the returned `isize` with the stored priority after the call. -/
def sys_set_priority (prio : Int) (cur : Nat) : Int × Nat :=
  if prio < 2 then (-1, cur)
  else (prio, isizeToUsize prio)

/-! ## Helper lemmas -/

theorem findZombie_eq_none (pid : Int) (l : List Child)
    (h : ∀ c ∈ l, zombieMatch pid c = false) : findZombie pid l = none := by
  induction l with
  | nil => rfl
  | cons c cs ih =>
    simp only [findZombie, h c (List.mem_cons_self c cs), if_false,
      ih (fun d hd => h d (List.mem_cons_of_mem c hd))]
    rfl

theorem findZombie_first (pid : Int) (l : List Child) (idx : Nat) (c : Child)
    (hc : l[idx]? = some c) (hm : zombieMatch pid c = true)
    (hfirst : ∀ j, j < idx → ∀ d, l[j]? = some d → zombieMatch pid d = false) :
    findZombie pid l = some (idx, c) := by
  induction l generalizing idx with
  | nil => simp at hc
  | cons a as ih =>
    cases idx with
    | zero =>
      simp only [List.getElem?_cons_zero, Option.some.injEq] at hc
      subst hc
      simp [findZombie, hm]
    | succ n =>
      have ha : zombieMatch pid a = false :=
        hfirst 0 (Nat.succ_pos n) a (by simp)
      simp only [List.getElem?_cons_succ] at hc
      have hrec := ih n hc (fun j hj d hd =>
        hfirst (j + 1) (Nat.succ_lt_succ hj) d (by simpa using hd))
      simp [findZombie, ha, hrec]

theorem waitpid_no_match (token : Nat) (children : List Child) (pid : Int)
    (ptr : Nat) (h : ∀ c ∈ children, waitMatches pid c = false) :
    sys_waitpid token children pid ptr = ⟨-1, children, none⟩ := by
  have hany : children.any (fun p => waitMatches pid p) = false := by
    rw [List.any_eq_false]
    intro c hc
    simp [h c hc]
  simp [sys_waitpid, hany]

theorem usizeToIsize_small (n : Nat) (h : n < 2 ^ 63) :
    usizeToIsize n = (n : Int) := by
  unfold usizeToIsize
  rw [if_pos h]

/-! ## Claims -/

/-- Claim C1: for every `sys_waitpid(pid, out_ptr)` call, if `pid`
(`-1` meaning any) matches no child of the caller, the result is `-1`; if
some child matches but no matching child is a zombie, the result is `-2`
and nothing is removed or written; otherwise the first matching zombie
child is removed from the caller's `children`, its exit code is written at
`out_ptr` through the caller's own address-space token, and its pid is
returned (as an `isize`, the identity on real pids below `2^63`). -/
theorem sys_waitpid_cases (token : Nat) (children : List Child) (pid : Int)
    (ptr : Nat) :
    ((∀ c ∈ children, waitMatches pid c = false) →
      sys_waitpid token children pid ptr = ⟨-1, children, none⟩) ∧
    ((∃ c ∈ children, waitMatches pid c = true) →
      (∀ c ∈ children, waitMatches pid c = true → c.is_zombie = false) →
      sys_waitpid token children pid ptr = ⟨-2, children, none⟩) ∧
    (∀ idx c, children[idx]? = some c → zombieMatch pid c = true →
      (∀ j, j < idx → ∀ d, children[j]? = some d → zombieMatch pid d = false) →
      sys_waitpid token children pid ptr =
        ⟨usizeToIsize c.pid, children.eraseIdx idx,
          some (token, ptr, c.exit_code)⟩ ∧
      (c.pid < 2 ^ 63 → usizeToIsize c.pid = (c.pid : Int))) := by
  refine ⟨waitpid_no_match token children pid ptr, ?_, ?_⟩
  · intro hex hall
    obtain ⟨c, hc, hm⟩ := hex
    have hany : children.any (fun p => waitMatches pid p) = true :=
      List.any_eq_true.mpr ⟨c, hc, hm⟩
    have hnone : findZombie pid children = none := by
      apply findZombie_eq_none
      intro d hd
      unfold zombieMatch
      cases hw : waitMatches pid d with
      | false => simp
      | true => simp [hall d hd hw]
    simp [sys_waitpid, hany, hnone]
  · intro idx c hc hm hfirst
    have hmem : c ∈ children := by
      obtain ⟨hlt, hget⟩ := List.getElem?_eq_some.mp hc
      exact hget ▸ List.getElem_mem hlt
    have hmatch : waitMatches pid c = true := by
      have hm2 := hm
      simp only [zombieMatch, Bool.and_eq_true] at hm2
      exact hm2.2
    have hany : children.any (fun p => waitMatches pid p) = true :=
      List.any_eq_true.mpr ⟨c, hmem, hmatch⟩
    refine ⟨?_, usizeToIsize_small c.pid⟩
    have hfz : findZombie pid children = some (idx, c) :=
      findZombie_first pid children idx c hc hm hfirst
    simp [sys_waitpid, hany, hfz]

/-- Witness for C1 at a concrete state: one zombie child with pid 3 and
exit code 9, reaped by `waitpid(-1, 100)` under token 7. -/
theorem sys_waitpid_cases_witness :
    sys_waitpid 7 [⟨3, true, 9⟩] (-1) 100 =
      ⟨usizeToIsize 3, ([(⟨3, true, 9⟩ : Child)]).eraseIdx 0,
        some (7, 100, 9)⟩ ∧
    ((3 : Nat) < 2 ^ 63 → usizeToIsize 3 = (3 : Int)) :=
  (sys_waitpid_cases 7 [⟨3, true, 9⟩] (-1) 100).2.2 0 ⟨3, true, 9⟩ rfl
    (by decide) (fun j hj => absurd hj (Nat.not_lt_zero j))

/-- Claim C9: for every negative pid other than `-1`, `sys_waitpid`
returns `-1` whatever the caller's children are: the `pid as usize` cast
lands in `[2^63, 2^64)` and so can never equal a real child pid. -/
theorem sys_waitpid_negative_pid (token : Nat) (children : List Child)
    (pid : Int) (ptr : Nat) (hlo : -2 ^ 63 ≤ pid) (hneg : pid < -1)
    (hpids : ∀ c ∈ children, c.pid < 2 ^ 63) :
    sys_waitpid token children pid ptr = ⟨-1, children, none⟩ := by
  apply waitpid_no_match
  intro c hc
  unfold waitMatches
  have h1 : (pid == -1) = false := by
    simp only [beq_eq_false_iff_ne, ne_eq]
    omega
  have h2 : (isizeToUsize pid == c.pid) = false := by
    simp only [beq_eq_false_iff_ne, ne_eq, isizeToUsize, USIZE_MOD]
    have := hpids c hc
    omega
  simp [h1, h2]

/-- Witness for C9: `waitpid(-2, _)` with a zombie child of pid 5 still
returns `-1` and reaps nothing. -/
theorem sys_waitpid_negative_pid_witness :
    sys_waitpid 0 [⟨5, true, 3⟩] (-2) 0 = ⟨-1, [⟨5, true, 3⟩], none⟩ :=
  sys_waitpid_negative_pid 0 [⟨5, true, 3⟩] (-2) 0 (by decide) (by decide)
    (by decide)

/-- Claim C3: `sys_fork` returns the new child's pid to the parent, and the
task handed to the scheduler has `x[10] = 0` in its saved trap context, so
the child observes return value 0 when first scheduled. -/
theorem sys_fork_spec (t : ForkedTask) (h : t.pid < 2 ^ 63) :
    (sys_fork t).1 = (t.pid : Int) ∧ (sys_fork t).2.x 10 = 0 ∧
    (sys_fork t).2.pid = t.pid := by
  refine ⟨usizeToIsize_small t.pid h, ?_, rfl⟩
  simp [sys_fork]

/-- Witness for C3 at a concrete forked task (pid 42, all registers 7). -/
theorem sys_fork_spec_witness :
    (sys_fork ⟨42, fun _ => 7⟩).1 = ((42 : Nat) : Int) ∧
    (sys_fork ⟨42, fun _ => 7⟩).2.x 10 = 0 ∧
    (sys_fork ⟨42, fun _ => 7⟩).2.pid = 42 :=
  sys_fork_spec ⟨42, fun _ => 7⟩ (by decide)

/-- Claim C4: `sys_set_priority p` returns `-1` and leaves the stored
priority unchanged when `p < 2`, and returns `p` and stores `p` when
`p ≥ 2` (for `p` in the `isize` range). -/
theorem sys_set_priority_spec (prio : Int) (cur : Nat)
    (hhi : prio < 2 ^ 63) :
    (prio < 2 → sys_set_priority prio cur = (-1, cur)) ∧
    (2 ≤ prio → (sys_set_priority prio cur).1 = prio ∧
      ((sys_set_priority prio cur).2 : Int) = prio) := by
  constructor
  · intro h
    simp [sys_set_priority, h]
  · intro h
    have hn : ¬ prio < 2 := by omega
    refine ⟨by simp [sys_set_priority, hn], ?_⟩
    simp only [sys_set_priority, hn, if_false, isizeToUsize, USIZE_MOD]
    omega

/-- Witness for C4: `set_priority(5)` with stored priority 1 returns 5 and
stores 5. -/
theorem sys_set_priority_spec_witness :
    (sys_set_priority 5 1).1 = 5 ∧ ((sys_set_priority 5 1).2 : Int) = 5 :=
  (sys_set_priority_spec 5 1 (by decide)).2 (by decide)

/-- Claim C5, counterexample: `sys_task_info` never returns 0 — the body is
the unimplemented stub returning `-1` (and writing nothing). -/
theorem sys_task_info_counterexample :
    ¬ ((sys_task_info 4096).1 = 0 ∧ (sys_task_info 4096).2 ≠ none) := by
  decide

/-- Claim C5, amended: `sys_task_info` is unsupported in this kernel: every
call returns `-1` and populates nothing through the `TaskInfo` pointer. -/
theorem sys_task_info_unsupported (p : Nat) :
    sys_task_info p = (-1, none) := rfl

/-- Claim C6, counterexample: the task-status type is not limited to
ready/running/terminal values — it contains the distinct uninitialized
value `UnInit` (and its terminal state is named `Exited`, not `Zombie`). -/
theorem taskStatus_counterexample :
    TaskStatus.UnInit ≠ TaskStatus.Ready ∧
    TaskStatus.UnInit ≠ TaskStatus.Running ∧
    TaskStatus.UnInit ≠ TaskStatus.Exited := by
  decide

/-- Claim C6, amended: every value of the task-status type is one of
`UnInit`, `Ready`, `Running`, `Exited`; the type does include an
uninitialized variant, and its terminal variant is `Exited`. -/
theorem taskStatus_cases (s : TaskStatus) :
    s = TaskStatus.UnInit ∨ s = TaskStatus.Ready ∨ s = TaskStatus.Running ∨
    s = TaskStatus.Exited := by
  cases s <;> simp

/-- Claim C8: `sys_get_time` returns 0 and writes `TimeVal` with
`sec = t / 10^6` and `usec = t % 10^6` at the given pointer, where `t` is
the microsecond clock reading; hence `sec * 10^6 + usec = t` and
`usec < 10^6`. -/
theorem sys_get_time_spec (t ptr : Nat) :
    (sys_get_time t ptr).1 = 0 ∧
    (sys_get_time t ptr).2 = (ptr, ⟨t / 1000000, t % 1000000⟩) ∧
    (t / 1000000) * 1000000 + t % 1000000 = t ∧
    t % 1000000 < 1000000 := by
  refine ⟨rfl, rfl, ?_, ?_⟩ <;> omega

/-! ## Bit-level reading of the `port` validation -/

theorem mask_testBit (i : Nat) :
    (USIZE_MOD - 8).testBit i = (decide (3 ≤ i) && decide (i < 64)) := by
  have h7 : (7 : Nat) < 2 ^ 64 := by norm_num
  have hmask : USIZE_MOD - 8 = 2 ^ 64 - (7 + 1) := by norm_num [USIZE_MOD]
  rw [hmask, Nat.testBit_two_pow_sub_succ h7,
    show (7 : Nat) = 2 ^ 3 - 1 by norm_num, Nat.testBit_two_pow_sub_one]
  by_cases h3 : 3 ≤ i
  · by_cases h64 : i < 64
    · simp [h3, h64, show ¬ i < 3 by omega]
    · simp [h3, h64]
  · by_cases h64 : i < 64
    · simp [h3, h64, show i < 3 by omega]
    · omega

theorem high_bits_iff (port : Nat) (hlt : port < USIZE_MOD) :
    (port &&& (USIZE_MOD - 8)) ≠ 0 ↔ ∃ i, 3 ≤ i ∧ port.testBit i = true := by
  constructor
  · intro h
    obtain ⟨i, hi⟩ := Nat.ne_zero_implies_bit_true h
    rw [Nat.testBit_and, mask_testBit, Bool.and_eq_true, Bool.and_eq_true] at hi
    exact ⟨i, of_decide_eq_true hi.2.1, hi.1⟩
  · rintro ⟨i, h3, hb⟩ h0
    have hi64 : i < 64 := by
      by_contra hge
      have h1 : 2 ^ 64 ≤ 2 ^ i := Nat.pow_le_pow_right (by norm_num) (by omega)
      have h2 : 2 ^ i ≤ port := Nat.testBit_implies_ge hb
      have h3 : port < 2 ^ 64 := by simpa [USIZE_MOD] using hlt
      omega
    have hbit : (port &&& (USIZE_MOD - 8)).testBit i = false := by
      rw [h0, Nat.zero_testBit]
    rw [Nat.testBit_and, mask_testBit] at hbit
    simp [hb, h3, hi64] at hbit

theorem low_bits_iff (port : Nat) :
    (port &&& 7) = 0 ↔
      (port.testBit 0 = false ∧ port.testBit 1 = false ∧
        port.testBit 2 = false) := by
  have h7 : ∀ i, Nat.testBit 7 i = decide (i < 3) := by
    intro i
    rw [show (7 : Nat) = 2 ^ 3 - 1 by norm_num, Nat.testBit_two_pow_sub_one]
  constructor
  · intro h
    have hk : ∀ k, k < 3 → port.testBit k = false := by
      intro k hk3
      have hb : (port &&& 7).testBit k = false := by
        rw [h, Nat.zero_testBit]
      rw [Nat.testBit_and, h7 k] at hb
      simpa [hk3] using hb
    exact ⟨hk 0 (by norm_num), hk 1 (by norm_num), hk 2 (by norm_num)⟩
  · rintro ⟨h0, h1, h2⟩
    apply Nat.eq_of_testBit_eq
    intro i
    rw [Nat.testBit_and, h7 i, Nat.zero_testBit]
    match i with
    | 0 => simp [h0]
    | 1 => simp [h1]
    | 2 => simp [h2]
    | (n + 3) => simp

/-- Claim C2: `sys_mmap(start, len, port)` returns only `-1` or `0`, and it
returns `-1` exactly when the start is not page-aligned, or `port` has a
bit set outside the low three bits or none of the R/W/X bits set, or the
(unsigned) length is zero, or the underlying region-level map reports an
already-mapped page (`-2`) or frame exhaustion (`-3`); otherwise it
returns `0`. -/
theorem sys_mmap_spec (mapOracle : Nat → Nat → Nat → Int)
    (start len port : Nat) (hport : port < USIZE_MOD)
    (horacle : ∀ s e p,
      mapOracle s e p = -2 ∨ mapOracle s e p = -3 ∨ 0 ≤ mapOracle s e p) :
    ((sys_mmap mapOracle start len port).1 = -1 ∨
      (sys_mmap mapOracle start len port).1 = 0) ∧
    ((sys_mmap mapOracle start len port).1 = -1 ↔
      (¬ start % PAGE_SIZE = 0 ∨
        (∃ i, 3 ≤ i ∧ port.testBit i = true) ∨
        (port.testBit 0 = false ∧ port.testBit 1 = false ∧
          port.testBit 2 = false) ∨
        len = 0 ∨
        mapOracle (start / PAGE_SIZE)
          (((start + len) % USIZE_MOD + PAGE_SIZE - 1) / PAGE_SIZE) port
            = -2 ∨
        mapOracle (start / PAGE_SIZE)
          (((start + len) % USIZE_MOD + PAGE_SIZE - 1) / PAGE_SIZE) port
            = -3)) := by
  by_cases h1 : start % PAGE_SIZE = 0
  case neg =>
    have hv : (sys_mmap mapOracle start len port).1 = -1 := by
      unfold sys_mmap
      rw [if_pos h1]
    refine ⟨Or.inl hv, ?_⟩
    rw [hv]
    exact ⟨fun _ => Or.inl h1, fun _ => rfl⟩
  case pos =>
    by_cases h2 : (port &&& (USIZE_MOD - 8)) ≠ 0 ∨ (port &&& 0x7) = 0
    case pos =>
      have hv : (sys_mmap mapOracle start len port).1 = -1 := by
        unfold sys_mmap
        rw [if_neg (by simp [h1]), if_pos h2]
      refine ⟨Or.inl hv, ?_⟩
      rw [hv]
      refine ⟨fun _ => ?_, fun _ => rfl⟩
      rcases h2 with h2 | h2
      · exact Or.inr (Or.inl ((high_bits_iff port hport).mp h2))
      · exact Or.inr (Or.inr (Or.inl ((low_bits_iff port).mp h2)))
    case neg =>
      push_neg at h2
      obtain ⟨hhigh, hlow⟩ := h2
      have hnot2 : ¬ ((port &&& (USIZE_MOD - 8)) ≠ 0 ∨ (port &&& 0x7) = 0) := by
        push_neg
        exact ⟨hhigh, hlow⟩
      by_cases h3 : len = 0
      case pos =>
        have hv : (sys_mmap mapOracle start len port).1 = -1 := by
          unfold sys_mmap
          rw [if_neg (by simp [h1]), if_neg hnot2, if_pos (by omega)]
        refine ⟨Or.inl hv, ?_⟩
        rw [hv]
        exact ⟨fun _ => Or.inr (Or.inr (Or.inr (Or.inl h3))), fun _ => rfl⟩
      case neg =>
        have hv : (sys_mmap mapOracle start len port).1 =
            (if mapOracle (start / PAGE_SIZE)
                (((start + len) % USIZE_MOD + PAGE_SIZE - 1) / PAGE_SIZE) port
                  < 0
              then -1 else 0) := by
          unfold sys_mmap
          rw [if_neg (by simp [h1]), if_neg hnot2, if_neg (by omega)]
        by_cases h4 : mapOracle (start / PAGE_SIZE)
            (((start + len) % USIZE_MOD + PAGE_SIZE - 1) / PAGE_SIZE) port < 0
        case pos =>
          have hv1 : (sys_mmap mapOracle start len port).1 = -1 := by
            rw [hv, if_pos h4]
          refine ⟨Or.inl hv1, ?_⟩
          rw [hv1]
          refine ⟨fun _ => ?_, fun _ => rfl⟩
          rcases horacle (start / PAGE_SIZE)
              (((start + len) % USIZE_MOD + PAGE_SIZE - 1) / PAGE_SIZE) port
            with hor | hor | hor
          · exact Or.inr (Or.inr (Or.inr (Or.inr (Or.inl hor))))
          · exact Or.inr (Or.inr (Or.inr (Or.inr (Or.inr hor))))
          · omega
        case neg =>
          have hv0 : (sys_mmap mapOracle start len port).1 = 0 := by
            rw [hv, if_neg h4]
          refine ⟨Or.inr hv0, ?_⟩
          rw [hv0]
          constructor
          · intro h
            exact absurd h (by norm_num)
          · rintro (h | h | h | h | h | h)
            · exact absurd h1 h
            · exact absurd ((high_bits_iff port hport).mpr h) (by simpa using hhigh)
            · exact absurd ((low_bits_iff port).mpr h) hlow
            · exact absurd h h3
            · omega
            · omega

/-- Witness for C2: a fully valid call (aligned start, `len = 5`,
`port = 1`, successful oracle) exercises the characterization. -/
theorem sys_mmap_spec_witness :
    ((sys_mmap (fun _ _ _ => 0) 4096 5 1).1 = -1 ∨
      (sys_mmap (fun _ _ _ => 0) 4096 5 1).1 = 0) ∧
    ((sys_mmap (fun _ _ _ => 0) 4096 5 1).1 = -1 ↔
      (¬ (4096 : Nat) % PAGE_SIZE = 0 ∨
        (∃ i, 3 ≤ i ∧ (1 : Nat).testBit i = true) ∨
        ((1 : Nat).testBit 0 = false ∧ (1 : Nat).testBit 1 = false ∧
          (1 : Nat).testBit 2 = false) ∨
        (5 : Nat) = 0 ∨
        (fun (_ _ _ : Nat) => (0 : Int)) ((4096 : Nat) / PAGE_SIZE)
          ((((4096 : Nat) + 5) % USIZE_MOD + PAGE_SIZE - 1) / PAGE_SIZE) 1
            = -2 ∨
        (fun (_ _ _ : Nat) => (0 : Int)) ((4096 : Nat) / PAGE_SIZE)
          ((((4096 : Nat) + 5) % USIZE_MOD + PAGE_SIZE - 1) / PAGE_SIZE) 1
            = -3)) :=
  sys_mmap_spec (fun _ _ _ => 0) 4096 5 1 (by decide)
    (fun _ _ _ => Or.inr (Or.inr (le_refl 0)))

/-- Claim C10: for page-aligned `start`, positive `len` (and a valid port
for the mmap side), both `sys_mmap` and `sys_munmap` hand the underlying
region operation the virtual-page range
`[start / PAGE_SIZE, ceil((start + len) / PAGE_SIZE))`: the end page number
is the least one whose page boundary reaches `start + len`, so a `len` that
is not a multiple of the page size covers the entire final page. -/
theorem mmap_munmap_page_range (mapOracle : Nat → Nat → Nat → Int)
    (unmapOracle : Nat → Nat → Int) (start len port : Nat)
    (hal : start % PAGE_SIZE = 0) (hlen : 0 < len)
    (hsum : start + len < USIZE_MOD)
    (hp1 : port &&& (USIZE_MOD - 8) = 0) (hp2 : port &&& 0x7 ≠ 0) :
    (sys_mmap mapOracle start len port).2 =
      some (start / PAGE_SIZE, (start + len + PAGE_SIZE - 1) / PAGE_SIZE,
        port) ∧
    (sys_munmap unmapOracle start len).2 =
      some (start / PAGE_SIZE, (start + len + PAGE_SIZE - 1) / PAGE_SIZE) ∧
    start + len ≤ ((start + len + PAGE_SIZE - 1) / PAGE_SIZE) * PAGE_SIZE ∧
    ((start + len + PAGE_SIZE - 1) / PAGE_SIZE) * PAGE_SIZE
      < start + len + PAGE_SIZE := by
  have hmod : (start + len) % USIZE_MOD = start + len := Nat.mod_eq_of_lt hsum
  have hport : ¬ ((port &&& (USIZE_MOD - 8)) ≠ 0 ∨ (port &&& 0x7) = 0) := by
    push_neg
    exact ⟨hp1, hp2⟩
  refine ⟨?_, ?_, ?_, ?_⟩
  · simp [sys_mmap, hal, hport, Nat.not_le.mpr hlen, hmod]
  · simp [sys_munmap, hal, Nat.not_le.mpr hlen, hmod]
  · simp only [PAGE_SIZE]
    omega
  · simp only [PAGE_SIZE]
    omega

/-- Witness for C10: `start = 4096`, `len = 100`, `port = 3` — the range
passed down is pages `[1, 2)`, covering the whole page `1`. -/
theorem mmap_munmap_page_range_witness :
    (sys_mmap (fun _ _ _ => 0) 4096 100 3).2 =
      some ((4096 : Nat) / PAGE_SIZE,
        ((4096 : Nat) + 100 + PAGE_SIZE - 1) / PAGE_SIZE, 3) ∧
    (sys_munmap (fun _ _ => 0) 4096 100).2 =
      some ((4096 : Nat) / PAGE_SIZE,
        ((4096 : Nat) + 100 + PAGE_SIZE - 1) / PAGE_SIZE) ∧
    (4096 : Nat) + 100 ≤
      (((4096 : Nat) + 100 + PAGE_SIZE - 1) / PAGE_SIZE) * PAGE_SIZE ∧
    (((4096 : Nat) + 100 + PAGE_SIZE - 1) / PAGE_SIZE) * PAGE_SIZE
      < (4096 : Nat) + 100 + PAGE_SIZE :=
  mmap_munmap_page_range (fun _ _ _ => 0) (fun _ _ => 0) 4096 100 3
    (by decide) (by decide) (by decide) (by decide) (by decide)

end RCore
